import Mathlib

/-!
Verification of the option-construction core of the tastytrade CLI
(src/ttcli/option.py and src/ttcli/utils.py) against its natural-language
specification. Decimal prices and deltas are embedded as rationals, Python
dicts as insertion-ordered association lists, and the asynchronous event
stream as a finite list consumed in arrival order; a loop that would block
forever (stream exhausted before completion) is modelled by `none`.
-/

namespace TTCli

/-- Market quote event (tastytrade.dxfeed.Quote): feed symbol plus bid and
ask prices. -/
structure Quote where
  eventSymbol : String
  bidPrice : Rat
  askPrice : Rat
deriving DecidableEq, Repr

/-- Greeks event (tastytrade.dxfeed.Greeks): feed symbol plus its delta. -/
structure Greeks where
  eventSymbol : String
  delta : Rat
deriving DecidableEq, Repr

/-- Insertion into a Python dict, preserving insertion order: an existing key
keeps its position and receives the new value, a new key is appended. -/
def dinsert {α : Type} (k : String) (v : α) : List (String × α) → List (String × α)
  | [] => [(k, v)]
  | (k1, v1) :: rest => if k1 = k then (k, v) :: rest else (k1, v1) :: dinsert k v rest

/-- Lookup in a Python dict modelled as an association list. -/
def dlookup {α : Type} (k : String) : List (String × α) → Option α
  | [] => none
  | (k1, v1) :: rest => if k1 = k then some v1 else dlookup k rest

/-- Shallow embedding of listen_quotes (src/ttcli/option.py lines 44-54): fold
over the event stream in arrival order; an event whose symbol equals skip is not
stored; the dict is returned the moment it holds n_quotes entries. `none` models
a stream that ends before completion (the Python coroutine would wait forever). -/
def listen_quotes (n_quotes : Nat) (skip : Option String) :
    List Quote → List (String × Quote) → Option (List (String × Quote))
  | [], _ => none
  | q :: rest, quote_dict =>
    let d := if skip = some q.eventSymbol then quote_dict else dinsert q.eventSymbol q quote_dict
    if d.length = n_quotes then some d else listen_quotes n_quotes skip rest d

/-- Shallow embedding of listen_greeks (src/ttcli/option.py lines 57-65): same
aggregation loop without a skip symbol. -/
def listen_greeks (n_greeks : Nat) :
    List Greeks → List (String × Greeks) → Option (List (String × Greeks))
  | [], _ => none
  | g :: rest, greeks_dict =>
    let d := dinsert g.eventSymbol g greeks_dict
    if d.length = n_greeks then some d else listen_greeks n_greeks rest d

/-- Delta-selection scan shared verbatim by the call, put and strangle commands
(src/ttcli/option.py lines 105-111, 233-239, 365-378): `lowest` starts at 100
and a reading strictly improving the lowest absolute deviation becomes the
selected one; the deviation function is the only difference between the sites. -/
def deltaScan (dev : Greeks → Rat) : List Greeks → Option Greeks → Rat → Option Greeks
  | [], selected, _ => selected
  | g :: rest, selected, lowest =>
    if dev g < lowest then deltaScan dev rest (some g) (dev g)
    else deltaScan dev rest selected lowest

/-- Call-side deviation, line 108: abs(g.delta * 100 - delta). -/
def callDev (delta : Int) (g : Greeks) : Rat := |g.delta * 100 - (delta : Rat)|

/-- Put-side deviation, line 236: abs(g.delta * 100 + delta). -/
def putDev (delta : Int) (g : Greeks) : Rat := |g.delta * 100 + (delta : Rat)|

/-- The call command's selection loop (lines 105-111). -/
def selectCallGreek (delta : Int) (gs : List Greeks) : Option Greeks :=
  deltaScan (callDev delta) gs none 100

/-- The put command's selection loop (lines 233-239). -/
def selectPutGreek (delta : Int) (gs : List Greeks) : Option Greeks :=
  deltaScan (putDev delta) gs none 100

/-- Outcome of a command's parameter-validation prefix: paramError means the
command printed an error and returned before RenewableSession and DXLinkStreamer
were created, proceeds means it goes on to open the session and subscriptions. -/
inductive CmdStart
  | paramError
  | proceeds
deriving DecidableEq, Repr

/-- Python truthiness of an Optional[Decimal]: falsy when absent or zero. -/
def decimalFalsy : Option Rat → Bool
  | none => true
  | some v => v == 0

/-- Python truthiness of an Optional[int]: falsy when absent or zero. -/
def intFalsy : Option Int → Bool
  | none => true
  | some v => v == 0

/-- Parameter validation of the call command (src/ttcli/option.py lines 83-91). -/
def callStart (strike : Option Rat) (delta : Option Int) : CmdStart :=
  if strike.isSome && delta.isSome then .paramError
  else if decimalFalsy strike && intFalsy delta then .paramError
  else if delta.isSome && decide (99 < (delta.getD 0).natAbs) then .paramError
  else .proceeds

/-- Parameter validation of the put command (src/ttcli/option.py lines 211-219),
textually identical to the call command's. -/
def putStart (strike : Option Rat) (delta : Option Int) : CmdStart :=
  if strike.isSome && delta.isSome then .paramError
  else if decimalFalsy strike && intFalsy delta then .paramError
  else if delta.isSome && decide (99 < (delta.getD 0).natAbs) then .paramError
  else .proceeds

/-- Parameter validation of the strangle command (src/ttcli/option.py lines
340-348). The second branch's condition is transcribed exactly as written in the
source: it repeats the first branch's condition, so its error return is dead. -/
def strangleStart (call put : Option Rat) (delta : Option Int) : CmdStart :=
  if (call.isSome || put.isSome) && delta.isSome then .paramError
  else if delta.isSome && (call.isSome || put.isSome) then .paramError
  else if delta.isSome && decide (99 < (delta.getD 0).natAbs) then .paramError
  else .proceeds

/-- Single-leg call pricing (src/ttcli/option.py lines 124-128): bid and ask are
taken straight from the quote; the order quantity, and with it the buy or sell
direction, is not consulted anywhere in this computation. -/
def callPricing (_quantity : Int) (q : Quote) : Rat × Rat := (q.bidPrice, q.askPrice)

/-- Vertical-spread combo bid (lines 120, 248): selected bid minus hedge ask. -/
def spreadBid (sel hedge : Quote) : Rat := sel.bidPrice - hedge.askPrice

/-- Vertical-spread combo ask (lines 121, 249): selected ask minus hedge bid. -/
def spreadAsk (sel hedge : Quote) : Rat := sel.askPrice - hedge.bidPrice

/-- Strangle combo bid (line 413): sum of the two legs' bids. -/
def strangleBid (qs : List Quote) : Rat := (qs.map Quote.bidPrice).sum

/-- Strangle combo ask (line 414): sum of the two legs' asks. -/
def strangleAsk (qs : List Quote) : Rat := (qs.map Quote.askPrice).sum

/-- Iron-condor combo bid (lines 401-404). -/
def condorBid (c p ps cs : Quote) : Rat :=
  c.bidPrice + p.bidPrice - ps.askPrice - cs.askPrice

/-- Iron-condor combo ask (lines 405-408). -/
def condorAsk (c p ps cs : Quote) : Rat :=
  c.askPrice + p.askPrice - ps.bidPrice - cs.bidPrice

/-- Modelled from the spec: the governing per-leg-sign rule of the Combo Pricer
(spec section 4.4) — a bought leg (flag true) contributes its own bid, a sold leg
contributes minus its own ask. The source has no sign-parameterised pricer; each
command hard-codes one sign assignment, compared against this rule below. -/
def comboBid (legs : List (Bool × Quote)) : Rat :=
  (legs.map (fun l => if l.1 then l.2.bidPrice else -l.2.askPrice)).sum

/-- Modelled from the spec: combo ask under the section 4.4 rule — a bought leg
contributes its own ask, a sold leg contributes minus its own bid. -/
def comboAsk (legs : List (Bool × Quote)) : Rat :=
  (legs.map (fun l => if l.1 then l.2.askPrice else -l.2.bidPrice)).sum

/-- Modelled from the spec: price_combo of section 4.4, the (bid, ask) pair. -/
def price_combo_spec (legs : List (Bool × Quote)) : Rat × Rat :=
  (comboBid legs, comboAsk legs)

/-- Call-spread pricing stage (lines 119-122) over the dict returned by
listen_quotes: bid, ask and mid; `none` models a KeyError. -/
def callSpreadPricing (qd : List (String × Quote)) (selSym spSym : String) :
    Option (Rat × Rat × Rat) :=
  match dlookup selSym qd, dlookup spSym qd with
  | some a, some b =>
    some (a.bidPrice - b.askPrice, a.askPrice - b.bidPrice,
          ((a.bidPrice - b.askPrice) + (a.askPrice - b.bidPrice)) / 2)
  | _, _ => none

/-- Banker's rounding of a rational to the nearest integer, as Python round() on
Decimal (ROUND_HALF_EVEN). -/
def roundHalfEven (x : Rat) : Int :=
  if x - Rat.floor x < 1/2 then Rat.floor x
  else if 1/2 < x - Rat.floor x then Rat.floor x + 1
  else if Rat.floor x % 2 = 0 then Rat.floor x else Rat.floor x + 1

/-- round(x, 2) on a Decimal: banker's rounding at two decimal places. -/
def round2 (x : Rat) : Rat := (roundHalfEven (x * 100) : Rat) / 100

/-- Limit-price selection (lines 143-146): empty operator input takes
round(mid, 2); otherwise the operator's figure is parsed and used exactly. -/
def limitPrice (inp : Option Rat) (mid : Rat) : Rat :=
  match inp with
  | none => round2 mid
  | some p => p

/-- Order leg actions used by the commands. -/
inductive OrderAction
  | BUY_TO_OPEN
  | SELL_TO_OPEN
deriving DecidableEq, Repr

/-- A tradable option contract as returned by Option.get_options: the fields the
leg builder consults. -/
structure Opt where
  symbol : String
  strike_price : Rat
deriving DecidableEq, Repr

/-- An order leg as produced by Option.build_leg, carrying its contract's strike
for the ordering claims. -/
structure Leg where
  symbol : String
  strike_price : Rat
  quantity : Nat
  action : OrderAction
deriving DecidableEq, Repr

/-- build_leg(option, quantity, action). -/
def build_leg (o : Opt) (q : Nat) (a : OrderAction) : Leg :=
  ⟨o.symbol, o.strike_price, q, a⟩

/-- Stable ascending sort by strike of the two options fetched for a call
vertical, as res.sort(key=strike_price) acts on a two-element list (line 151). -/
def sortPairAsc (o1 o2 : Opt) : Opt × Opt :=
  if o2.strike_price < o1.strike_price then (o2, o1) else (o1, o2)

/-- Stable descending sort by strike of the two options fetched for a put
vertical, as res.sort(key=strike_price, reverse=True) acts on them (line 279). -/
def sortPairDesc (o1 o2 : Opt) : Opt × Opt :=
  if o1.strike_price < o2.strike_price then (o2, o1) else (o1, o2)

/-- Call vertical leg construction (src/ttcli/option.py lines 149-155): options
sorted ascending by strike; the first leg sells to open when quantity is
negative, the second takes the opposite action; both have size abs(quantity). -/
def callSpreadLegs (o1 o2 : Opt) (quantity : Int) : List Leg :=
  [build_leg (sortPairAsc o1 o2).1 quantity.natAbs
     (if quantity < 0 then .SELL_TO_OPEN else .BUY_TO_OPEN),
   build_leg (sortPairAsc o1 o2).2 quantity.natAbs
     (if quantity < 0 then .BUY_TO_OPEN else .SELL_TO_OPEN)]

/-- Put vertical leg construction (src/ttcli/option.py lines 277-283): options
sorted descending by strike (reverse=True); action assignment as for calls. -/
def putSpreadLegs (o1 o2 : Opt) (quantity : Int) : List Leg :=
  [build_leg (sortPairDesc o1 o2).1 quantity.natAbs
     (if quantity < 0 then .SELL_TO_OPEN else .BUY_TO_OPEN),
   build_leg (sortPairDesc o1 o2).2 quantity.natAbs
     (if quantity < 0 then .BUY_TO_OPEN else .SELL_TO_OPEN)]

/-- Order time in force. -/
inductive OrderTimeInForce
  | DAY
  | GTC
deriving DecidableEq, Repr

/-- Order type; the commands only ever use LIMIT. -/
inductive OrderType
  | LIMIT
  | MARKET
deriving DecidableEq, Repr

/-- Price effect of an order. -/
inductive PriceEffect
  | CREDIT
  | DEBIT
deriving DecidableEq, Repr

/-- NewOrder with the fields the commands set. -/
structure NewOrder where
  time_in_force : OrderTimeInForce
  order_type : OrderType
  legs : List Leg
  price : Rat
  price_effect : PriceEffect
deriving DecidableEq, Repr

/-- Order construction in the call command (src/ttcli/option.py lines 159-165). -/
def callOrder (gtc : Bool) (quantity : Int) (legs : List Leg) (price : Rat) : NewOrder :=
  ⟨if gtc then .GTC else .DAY, .LIMIT, legs, price,
   if quantity < 0 then .CREDIT else .DEBIT⟩

/-- Order construction in the put command (lines 287-293), textually identical. -/
def putOrder (gtc : Bool) (quantity : Int) (legs : List Leg) (price : Rat) : NewOrder :=
  ⟨if gtc then .GTC else .DAY, .LIMIT, legs, price,
   if quantity < 0 then .CREDIT else .DEBIT⟩

/-- Order construction in the strangle command (lines 452-458), identical again. -/
def strangleOrder (gtc : Bool) (quantity : Int) (legs : List Leg) (price : Rat) : NewOrder :=
  ⟨if gtc then .GTC else .DAY, .LIMIT, legs, price,
   if quantity < 0 then .CREDIT else .DEBIT⟩

/-- One row of a NestedOptionChain expiration's strikes list: the fields the
delta-to-strike resolution consults. -/
structure StrikeRow where
  strike_price : Rat
  call_streamer_symbol : String
  put_streamer_symbol : String
deriving DecidableEq, Repr

/-- Strike resolution after call-side delta selection (lines 113-114),
next(s.strike_price for s in subchain.strikes if s.call_streamer_symbol ==
selected.eventSymbol). `none` on a missing selection models the unhandled
AttributeError raised when `selected` is still None; `none` on no matching
strike models the StopIteration of next. -/
def resolveCallStrike (strikes : List StrikeRow) (selected : Option Greeks) : Option Rat :=
  match selected with
  | none => none
  | some g =>
    (strikes.find? (fun s => s.call_streamer_symbol == g.eventSymbol)).map StrikeRow.strike_price

/-- An expiration date as the code reads it: the calendar fields plus the
weekday that datetime.date.weekday() reports (0 = Monday, 4 = Friday); the
weekday computation itself lives in the Python standard library. -/
structure TDate where
  year : Int
  month : Nat
  day : Nat
  weekday : Nat
deriving DecidableEq, Repr

/-- is_monthly (src/ttcli/utils.py lines 141-142): weekday is Friday and the
day of the month lies in [15, 21]. -/
def is_monthly (d : TDate) : Bool :=
  d.weekday == 4 && decide (15 ≤ d.day) && decide (d.day ≤ 21)

/-- One operator input line for the expiration prompt: a parsed integer, an
empty line, or a line int() rejects. -/
inductive Tok
  | num (k : Int)
  | empty
  | junk
deriving DecidableEq, Repr

/-- Python list.index: position of the first occurrence; `none` models the
ValueError raised when the element is absent. -/
def listIndex (t : TDate) : List TDate → Option Nat
  | [] => none
  | d :: rest => if d = t then some 0 else (listIndex t rest).map (· + 1)

/-- Input loop of choose_expiration (src/ttcli/option.py lines 32-41): a number
inside [1, len] returns that expiration, an empty line returns the default,
any other line reprompts; `none` models an exhausted input stream (the Python
loop would keep prompting). -/
def chooseLoop (exps : List TDate) (default : Nat) : List Tok → Option TDate
  | [] => none
  | Tok.num k :: rest =>
    if 1 ≤ k ∧ k ≤ (exps.length : Int) then exps.get? (k - 1).toNat
    else chooseLoop exps default rest
  | Tok.empty :: _ => exps.get? default
  | Tok.junk :: rest => chooseLoop exps default rest

/-- choose_expiration (src/ttcli/option.py lines 19-41). get_tasty_monthly is
the external tastytrade helper returning the canonical monthly expiration
nearest now; it enters here as the tastyMonthly parameter. `none` models the
uncaught ValueError of exps.index when that date is not among the offered
expirations, or an exhausted input stream. -/
def choose_expiration (expDates : List TDate) (include_weeklies : Bool)
    (tastyMonthly : TDate) (inputs : List Tok) : Option TDate :=
  let exps := if include_weeklies then expDates else expDates.filter is_monthly
  match listIndex tastyMonthly exps with
  | none => none
  | some d => chooseLoop exps d inputs

/-- Feed symbol used in the concrete aggregation examples. -/
def symX : String := "X"

/-- Second feed symbol of the aggregation examples. -/
def symY : String := "Y"

/-- Quote event X with bid 1.0. -/
def qX10 : Quote := ⟨symX, 1, 11/10⟩

/-- Quote event Y with bid 2.0. -/
def qY20 : Quote := ⟨symY, 2, 21/10⟩

/-- Later quote event for X with bid 1.2. -/
def qX12 : Quote := ⟨symX, 6/5, 13/10⟩

/-- Reading A of the delta-selection example: delta 0.30. -/
def gA : Greeks := ⟨"A", 3/10⟩

/-- Reading B of the delta-selection example: delta 0.32. -/
def gB : Greeks := ⟨"B", 8/25⟩

/-- Reading C of the delta-selection example: delta 0.25. -/
def gC : Greeks := ⟨"C", 1/4⟩

/-- Unfolding of the aggregation loop on a nonempty stream. -/
theorem listen_quotes_cons (n : Nat) (skip : Option String) (e : Quote)
    (rest : List Quote) (acc : List (String × Quote)) :
    listen_quotes n skip (e :: rest) acc =
      (if (if skip = some e.eventSymbol then acc else dinsert e.eventSymbol e acc).length = n
       then some (if skip = some e.eventSymbol then acc else dinsert e.eventSymbol e acc)
       else listen_quotes n skip rest
         (if skip = some e.eventSymbol then acc else dinsert e.eventSymbol e acc)) := rfl

/-- Dict insertion grows the dict by at most one entry. -/
theorem dinsert_length_le {α : Type} (k : String) (v : α) :
    ∀ l : List (String × α), (dinsert k v l).length ≤ l.length + 1 := by
  intro l
  induction l with
  | nil => simp [dinsert]
  | cons p rest ih =>
    obtain ⟨k1, v1⟩ := p
    by_cases h : k1 = k
    · simp [dinsert, h]
    · simp only [dinsert, if_neg h, List.length_cons]
      omega

/-- Inserting one key leaves lookups of other keys unchanged. -/
theorem dlookup_dinsert_ne {α : Type} (k1 k2 : String) (v : α) (h : k1 ≠ k2) :
    ∀ l : List (String × α), dlookup k2 (dinsert k1 v l) = dlookup k2 l := by
  intro l
  induction l with
  | nil => simp [dinsert, dlookup, h]
  | cons p rest ih =>
    obtain ⟨k0, v0⟩ := p
    by_cases h0 : k0 = k1
    · subst h0
      simp [dinsert, dlookup, h]
    · rw [dinsert, if_neg h0]
      by_cases h2 : k0 = k2
      · simp [dlookup, h2]
      · simp [dlookup, h2, ih]

/-- Inserting a key already present leaves the key list unchanged. -/
theorem dinsert_keys_of_mem {α : Type} (k : String) (v : α) :
    ∀ l : List (String × α), k ∈ l.map Prod.fst →
      (dinsert k v l).map Prod.fst = l.map Prod.fst := by
  intro l
  induction l with
  | nil => intro h; simp at h
  | cons p rest ih =>
    obtain ⟨k1, v1⟩ := p
    intro hmem
    by_cases h : k1 = k
    · subst h
      simp [dinsert]
    · rw [dinsert, if_neg h]
      simp only [List.map_cons, List.mem_cons] at hmem
      rcases hmem with h1 | h1
      · exact absurd h1.symm h
      · simp [ih h1]

/-- Inserting a fresh key appends it to the key list. -/
theorem dinsert_keys_of_not_mem {α : Type} (k : String) (v : α) :
    ∀ l : List (String × α), k ∉ l.map Prod.fst →
      (dinsert k v l).map Prod.fst = l.map Prod.fst ++ [k] := by
  intro l
  induction l with
  | nil => intro _; rfl
  | cons p rest ih =>
    obtain ⟨k1, v1⟩ := p
    intro hmem
    simp only [List.map_cons, List.mem_cons] at hmem
    push_neg at hmem
    obtain ⟨h1, h2⟩ := hmem
    rw [dinsert, if_neg (Ne.symm h1)]
    simp [ih h2]

/-- Dict insertion preserves distinctness of the keys. -/
theorem dinsert_keys_nodup {α : Type} (k : String) (v : α) (l : List (String × α))
    (h : (l.map Prod.fst).Nodup) : ((dinsert k v l).map Prod.fst).Nodup := by
  by_cases hm : k ∈ l.map Prod.fst
  · rw [dinsert_keys_of_mem k v l hm]
    exact h
  · rw [dinsert_keys_of_not_mem k v l hm]
    refine List.Nodup.append h (List.nodup_singleton k) ?_
    intro a ha hk
    rw [List.mem_singleton] at hk
    subst hk
    exact hm ha

/-- Whenever the aggregation loop returns a dict, that dict has exactly the
requested number of entries. -/
theorem listen_quotes_length : ∀ (evs : List Quote) (n : Nat) (skip : Option String)
    (acc m : List (String × Quote)),
    listen_quotes n skip evs acc = some m → m.length = n := by
  intro evs
  induction evs with
  | nil =>
    intro n skip acc m h
    simp [listen_quotes] at h
  | cons e rest ih =>
    intro n skip acc m h
    rw [listen_quotes_cons] at h
    by_cases hlen :
        (if skip = some e.eventSymbol then acc else dinsert e.eventSymbol e acc).length = n
    · rw [if_pos hlen] at h
      injection h with h
      subst h
      exact hlen
    · rw [if_neg hlen] at h
      exact ih n skip _ m h

/-- The aggregation loop preserves distinctness of the dict's keys. -/
theorem listen_quotes_nodup : ∀ (evs : List Quote) (n : Nat) (skip : Option String)
    (acc m : List (String × Quote)), (acc.map Prod.fst).Nodup →
    listen_quotes n skip evs acc = some m → (m.map Prod.fst).Nodup := by
  intro evs
  induction evs with
  | nil =>
    intro n skip acc m _ h
    simp [listen_quotes] at h
  | cons e rest ih =>
    intro n skip acc m hacc h
    rw [listen_quotes_cons] at h
    have hd : ((if skip = some e.eventSymbol then acc
        else dinsert e.eventSymbol e acc).map Prod.fst).Nodup := by
      by_cases hs : skip = some e.eventSymbol
      · rw [if_pos hs]
        exact hacc
      · rw [if_neg hs]
        exact dinsert_keys_nodup e.eventSymbol e acc hacc
    by_cases hlen :
        (if skip = some e.eventSymbol then acc else dinsert e.eventSymbol e acc).length = n
    · rw [if_pos hlen] at h
      injection h with h
      subst h
      exact hd
    · rw [if_neg hlen] at h
      exact ih n skip _ m hd h

/-- Running the aggregation loop with a skip symbol is the same as running it on
the stream with that symbol's events removed, as long as the dict is still short
of completion. -/
theorem listen_quotes_skip_filter : ∀ (evs : List Quote) (n : Nat) (S : String)
    (acc : List (String × Quote)), acc.length < n →
    listen_quotes n (some S) evs acc =
      listen_quotes n (some S) (evs.filter (fun e => e.eventSymbol ≠ S)) acc := by
  intro evs
  induction evs with
  | nil => intro n S acc _; rfl
  | cons e rest ih =>
    intro n S acc hlt
    by_cases he : e.eventSymbol = S
    · have hcond : (some S : Option String) = some e.eventSymbol := by rw [he]
      have hfil : (e :: rest).filter (fun e => e.eventSymbol ≠ S) =
          rest.filter (fun e => e.eventSymbol ≠ S) := by
        simp [List.filter_cons, he]
      rw [hfil, listen_quotes_cons, if_pos hcond, if_neg (Nat.ne_of_lt hlt)]
      exact ih n S acc hlt
    · have hcond : ¬ (some S : Option String) = some e.eventSymbol := by
        intro hc
        exact he (Option.some.inj hc).symm
      have hfil : (e :: rest).filter (fun e => e.eventSymbol ≠ S) =
          e :: rest.filter (fun e => e.eventSymbol ≠ S) := by
        simp [List.filter_cons, he]
      rw [hfil, listen_quotes_cons, listen_quotes_cons, if_neg hcond]
      by_cases hlen : (dinsert e.eventSymbol e acc).length = n
      · rw [if_pos hlen, if_pos hlen]
      · rw [if_neg hlen, if_neg hlen]
        have hle : (dinsert e.eventSymbol e acc).length ≤ acc.length + 1 :=
          dinsert_length_le e.eventSymbol e acc
        exact ih n S _ (by omega)

/-- If the skip symbol has no dict entry on entry, it has none in the result. -/
theorem listen_quotes_skip_lookup : ∀ (evs : List Quote) (n : Nat) (S : String)
    (acc m : List (String × Quote)), dlookup S acc = none →
    listen_quotes n (some S) evs acc = some m → dlookup S m = none := by
  intro evs
  induction evs with
  | nil =>
    intro n S acc m _ h
    simp [listen_quotes] at h
  | cons e rest ih =>
    intro n S acc m hacc h
    rw [listen_quotes_cons] at h
    have hd : dlookup S (if some S = some e.eventSymbol then acc
        else dinsert e.eventSymbol e acc) = none := by
      by_cases hs : (some S : Option String) = some e.eventSymbol
      · rw [if_pos hs]
        exact hacc
      · rw [if_neg hs]
        have hne : e.eventSymbol ≠ S := fun hh => hs (by rw [hh])
        rw [dlookup_dinsert_ne e.eventSymbol S e hne acc]
        exact hacc
    by_cases hlen :
        (if (some S : Option String) = some e.eventSymbol then acc
          else dinsert e.eventSymbol e acc).length = n
    · rw [if_pos hlen] at h
      injection h with h
      subst h
      exact hd
    · rw [if_neg hlen] at h
      exact ih n S _ m hd h

/-- Unfolding of the deviation scan on a nonempty reading list. -/
theorem deltaScan_cons (dev : Greeks → Rat) (g : Greeks) (rest : List Greeks)
    (selected : Option Greeks) (lowest : Rat) :
    deltaScan dev (g :: rest) selected lowest =
      (if dev g < lowest then deltaScan dev rest (some g) (dev g)
       else deltaScan dev rest selected lowest) := rfl

/-- If no reading beats the current bound, the scan keeps its selection. -/
theorem deltaScan_ge (dev : Greeks → Rat) : ∀ (gs : List Greeks)
    (selected : Option Greeks) (lowest : Rat),
    (∀ g ∈ gs, lowest ≤ dev g) → deltaScan dev gs selected lowest = selected := by
  intro gs
  induction gs with
  | nil => intro sel low _; rfl
  | cons g rest ih =>
    intro sel low h
    have hg : ¬ dev g < low := not_lt.mpr (h g (List.mem_cons_self g rest))
    rw [deltaScan_cons, if_neg hg]
    exact ih sel low (fun g2 hg2 => h g2 (List.mem_cons_of_mem g hg2))

/-- If some reading beats the bound, the scan returns the first reading attaining
the minimal deviation: strictly better than everything before it, at least as
good as everything after it. -/
theorem deltaScan_min (dev : Greeks → Rat) : ∀ (gs : List Greeks)
    (selected : Option Greeks) (lowest : Rat),
    (∃ g ∈ gs, dev g < lowest) →
    ∃ l1 g0 l2, gs = l1 ++ g0 :: l2 ∧ dev g0 < lowest ∧
      (∀ g ∈ l1, dev g0 < dev g) ∧ (∀ g ∈ l2, dev g0 ≤ dev g) ∧
      deltaScan dev gs selected lowest = some g0 := by
  intro gs
  induction gs with
  | nil =>
    intro sel low h
    simp at h
  | cons g rest ih =>
    intro sel low h
    by_cases hg : dev g < low
    · rw [deltaScan_cons, if_pos hg]
      by_cases hrest : ∀ g2 ∈ rest, dev g ≤ dev g2
      · exact ⟨[], g, rest, by simp, hg, by simp, hrest,
          deltaScan_ge dev rest (some g) (dev g) hrest⟩
      · push_neg at hrest
        obtain ⟨g2, hg2mem, hg2⟩ := hrest
        obtain ⟨l1, g0, l2, heq, hlow, hl1, hl2, hscan⟩ :=
          ih (some g) (dev g) ⟨g2, hg2mem, hg2⟩
        refine ⟨g :: l1, g0, l2, by simp [heq], lt_trans hlow hg, ?_, hl2, hscan⟩
        intro g3 hg3
        rcases List.mem_cons.mp hg3 with h3 | h3
        · rw [h3]
          exact hlow
        · exact hl1 g3 h3
    · rw [deltaScan_cons, if_neg hg]
      have h2 : ∃ g2 ∈ rest, dev g2 < low := by
        obtain ⟨g2, hmem, hdev⟩ := h
        rcases List.mem_cons.mp hmem with h3 | h3
        · exact absurd (h3 ▸ hdev) hg
        · exact ⟨g2, h3, hdev⟩
      obtain ⟨l1, g0, l2, heq, hlow, hl1, hl2, hscan⟩ := ih sel low h2
      refine ⟨g :: l1, g0, l2, by simp [heq], hlow, ?_, hl2, hscan⟩
      intro g3 hg3
      rcases List.mem_cons.mp hg3 with h3 | h3
      · rw [h3]
        exact lt_of_lt_of_le hlow (not_lt.mp hg)
      · exact hl1 g3 h3

/-- Corollary of the scan characterisation packaged for the selection claims:
the selected reading is a member, attains the global minimum deviation, and is
the first member to do so. -/
theorem deltaScan_first_min (dev : Greeks → Rat) (gs : List Greeks)
    (sel : Option Greeks) (low : Rat) (h : ∃ g ∈ gs, dev g < low) :
    ∃ g0, deltaScan dev gs sel low = some g0 ∧ g0 ∈ gs ∧
      (∀ g ∈ gs, dev g0 ≤ dev g) ∧
      ∃ l1 l2, gs = l1 ++ g0 :: l2 ∧ ∀ g ∈ l1, dev g0 < dev g := by
  obtain ⟨l1, g0, l2, heq, _, hl1, hl2, hscan⟩ := deltaScan_min dev gs sel low h
  refine ⟨g0, hscan, ?_, ?_, l1, l2, heq, hl1⟩
  · rw [heq]
    exact List.mem_append_right l1 (List.mem_cons_self g0 l2)
  · intro g hgmem
    rw [heq] at hgmem
    rcases List.mem_append.mp hgmem with h1 | h1
    · exact le_of_lt (hl1 g h1)
    · rcases List.mem_cons.mp h1 with h2 | h2
      · rw [h2]
      · exact hl2 g h2

/-- Whatever the chooser loop returns came from the offered list. -/
theorem chooseLoop_mem : ∀ (toks : List Tok) (exps : List TDate) (d : Nat) (e : TDate),
    chooseLoop exps d toks = some e → e ∈ exps := by
  intro toks
  induction toks with
  | nil =>
    intro exps d e h
    simp [chooseLoop] at h
  | cons t rest ih =>
    intro exps d e h
    match t with
    | Tok.num k =>
      rw [chooseLoop] at h
      by_cases hk : 1 ≤ k ∧ k ≤ (exps.length : Int)
      · rw [if_pos hk] at h
        exact List.get?_mem h
      · rw [if_neg hk] at h
        exact ih exps d e h
    | Tok.empty =>
      rw [chooseLoop] at h
      exact List.get?_mem h
    | Tok.junk =>
      rw [chooseLoop] at h
      exact ih exps d e h

/-- list.index finds its element: the position it reports holds the element. -/
theorem listIndex_get : ∀ (l : List TDate) (t : TDate) (i : Nat),
    listIndex t l = some i → l.get? i = some t := by
  intro l
  induction l with
  | nil =>
    intro t i h
    simp [listIndex] at h
  | cons d rest ih =>
    intro t i h
    rw [listIndex] at h
    by_cases hd : d = t
    · rw [if_pos hd] at h
      injection h with h
      subst h
      simp [hd]
    · rw [if_neg hd] at h
      cases hi : listIndex t rest with
      | none =>
        rw [hi] at h
        simp at h
      | some j =>
        rw [hi] at h
        simp at h
        subst h
        simpa using ih t j hi

/-- list.index succeeds on members. -/
theorem listIndex_isSome : ∀ (l : List TDate) (t : TDate), t ∈ l →
    ∃ i, listIndex t l = some i := by
  intro l
  induction l with
  | nil =>
    intro t h
    simp at h
  | cons d rest ih =>
    intro t h
    by_cases hd : d = t
    · exact ⟨0, by rw [listIndex, if_pos hd]⟩
    · rcases List.mem_cons.mp h with h1 | h1
      · exact absurd h1.symm hd
      · obtain ⟨j, hj⟩ := ih t h1
        exact ⟨j + 1, by rw [listIndex, if_neg hd, hj]; rfl⟩

/-- Flipping every leg sign turns the rule's combo bid into minus its combo ask. -/
theorem comboBid_flip : ∀ legs : List (Bool × Quote),
    comboBid (legs.map (fun l => (!l.1, l.2))) = -comboAsk legs := by
  intro legs
  induction legs with
  | nil => simp [comboBid, comboAsk]
  | cons l rest ih =>
    obtain ⟨b, q⟩ := l
    cases b <;> simp [comboBid, comboAsk] at ih ⊢ <;> linarith [ih]

/-- Flipping every leg sign turns the rule's combo ask into minus its combo bid. -/
theorem comboAsk_flip : ∀ legs : List (Bool × Quote),
    comboAsk (legs.map (fun l => (!l.1, l.2))) = -comboBid legs := by
  intro legs
  induction legs with
  | nil => simp [comboBid, comboAsk]
  | cons l rest ih =>
    obtain ⟨b, q⟩ := l
    cases b <;> simp [comboBid, comboAsk] at ih ⊢ <;> linarith [ih]

/-- Skip symbol used in the skip-behaviour witness. -/
def symS : String := "S"

/-- Quote event for the skip symbol. -/
def qS30 : Quote := ⟨symS, 3, 31/10⟩

/-- Call contract at strike 100 for the leg-builder example. -/
def c100 : Opt := ⟨"C100", 100⟩

/-- Call contract at strike 105, the protective strike of the call vertical. -/
def c105 : Opt := ⟨"C105", 105⟩

/-- Put contract at strike 100, the selected strike of the put vertical. -/
def o100 : Opt := ⟨"P100", 100⟩

/-- Put contract at strike 95, the protective strike of the put vertical. -/
def o95 : Opt := ⟨"P95", 95⟩

/-- Friday 2024-06-21, a monthly expiration (weekday 4, day 21). -/
def dJun : TDate := ⟨2024, 6, 21, 4⟩

/-- C1 counterexample: with expected count 2 and feed order X→bid 1.0,
Y→bid 2.0, X→bid 1.2, the loop completes at Y's event (the mapping then holds
two symbols) and the later X event is never consumed, so X keeps bid 1.0 — the
claimed mapping with X at bid 1.2 is wrong. -/
theorem listen_quotes_last_event_claim_false :
    listen_quotes 2 none [qX10, qY20, qX12] [] = some [(symX, qX10), (symY, qY20)] ∧
    dlookup symX [(symX, qX10), (symY, qY20)] = some qX10 ∧
    qX10.bidPrice ≠ qX12.bidPrice := by
  refine ⟨rfl, rfl, ?_⟩
  norm_num [qX10, qX12]

/-- C1 (amended): the aggregation loop returns exactly when the mapping first
holds n distinct symbols; every event consumed before that point overwrites the
prior entry for its symbol (feed X→1.0, X→1.2, Y→2.0 keeps X at bid 1.2), but
the feed X→1.0, Y→2.0, X→1.2 completes upon Y's event and therefore keeps X at
bid 1.0. -/
theorem listen_quotes_aggregation :
    (∀ (n : Nat) (skip : Option String) (evs : List Quote) (m : List (String × Quote)),
      listen_quotes n skip evs [] = some m → m.length = n ∧ (m.map Prod.fst).Nodup) ∧
    dlookup symX ((listen_quotes 2 none [qX10, qX12, qY20] []).getD []) = some qX12 ∧
    dlookup symY ((listen_quotes 2 none [qX10, qX12, qY20] []).getD []) = some qY20 ∧
    dlookup symX ((listen_quotes 2 none [qX10, qY20, qX12] []).getD []) = some qX10 := by
  refine ⟨?_, rfl, rfl, rfl⟩
  intro n skip evs m h
  exact ⟨listen_quotes_length evs n skip [] m h,
    listen_quotes_nodup evs n skip [] m (by simp) h⟩

/-- C1 witness: the completion part of the amended theorem applied to the
concrete three-event feed. -/
theorem listen_quotes_aggregation_w :
    [(symX, qX10), (symY, qY20)].length = 2 ∧
    ([(symX, qX10), (symY, qY20)].map Prod.fst).Nodup :=
  listen_quotes_aggregation.1 2 none [qX10, qY20, qX12]
    [(symX, qX10), (symY, qY20)] (by rfl)

/-- C7: the quote aggregation loop with skip symbol S stores no event for S and
counts none toward completion — its outcome is identical to running on the
stream with every S event deleted — whether or not S is among the expected
symbols. -/
theorem listen_quotes_skip_spec :
    ∀ (n : Nat) (S : String) (evs : List Quote), 0 < n →
      listen_quotes n (some S) evs [] =
        listen_quotes n (some S) (evs.filter (fun e => e.eventSymbol ≠ S)) [] ∧
      ∀ m, listen_quotes n (some S) evs [] = some m → dlookup S m = none := by
  intro n S evs hn
  exact ⟨listen_quotes_skip_filter evs n S [] (by simpa using hn),
    fun m h => listen_quotes_skip_lookup evs n S [] m rfl h⟩

/-- C7 witness: the skip theorem applied to a concrete feed where the skip
symbol S is not among the two expected symbols. -/
theorem listen_quotes_skip_spec_w :
    listen_quotes 2 (some symS) [qS30, qX10, qY20] [] =
      listen_quotes 2 (some symS)
        ([qS30, qX10, qY20].filter (fun e => e.eventSymbol ≠ symS)) [] ∧
    ∀ m, listen_quotes 2 (some symS) [qS30, qX10, qY20] [] = some m →
      dlookup symS m = none :=
  listen_quotes_skip_spec 2 symS [qS30, qX10, qY20] (by decide)

/-- C2 counterexample: a single reading with delta −1 and the in-range target
30 — its deviation 130 never beats the scan's initial bound of 100, so the scan
selects nothing even though this reading is the unique minimiser. -/
theorem select_call_claim_false :
    selectCallGreek 30 [⟨"A", -1⟩] = none ∧ callDev 30 ⟨"A", -1⟩ = 130 := by
  constructor <;> norm_num [selectCallGreek, deltaScan, callDev]

/-- C2 (amended): provided some reading's deviation beats the scan's initial
bound 100, call-side and put-side selection return the first reading attaining
the minimal absolute deviation (deviation = delta·100 − target for calls,
delta·100 + target for puts; a tie keeps the first-encountered reading); the
concrete call-side example A: 0.30, B: 0.32, C: 0.25 with target 30 returns A. -/
theorem select_by_delta_spec :
    (∀ (t : Int) (gs : List Greeks), (∃ g ∈ gs, callDev t g < 100) →
      ∃ g0, selectCallGreek t gs = some g0 ∧ g0 ∈ gs ∧
        (∀ g ∈ gs, callDev t g0 ≤ callDev t g) ∧
        ∃ l1 l2, gs = l1 ++ g0 :: l2 ∧ ∀ g ∈ l1, callDev t g0 < callDev t g) ∧
    (∀ (t : Int) (gs : List Greeks), (∃ g ∈ gs, putDev t g < 100) →
      ∃ g0, selectPutGreek t gs = some g0 ∧ g0 ∈ gs ∧
        (∀ g ∈ gs, putDev t g0 ≤ putDev t g) ∧
        ∃ l1 l2, gs = l1 ++ g0 :: l2 ∧ ∀ g ∈ l1, putDev t g0 < putDev t g) ∧
    selectCallGreek 30 [gA, gB, gC] = some gA := by
  refine ⟨?_, ?_, by norm_num [selectCallGreek, deltaScan, callDev, gA, gB, gC]⟩
  · intro t gs h
    exact deltaScan_first_min (callDev t) gs none 100 h
  · intro t gs h
    exact deltaScan_first_min (putDev t) gs none 100 h

/-- C2 witness: the call-side part of the selection theorem applied to the
concrete three-reading example. -/
theorem select_by_delta_spec_w :
    ∃ g0, selectCallGreek 30 [gA, gB, gC] = some g0 ∧ g0 ∈ [gA, gB, gC] ∧
      (∀ g ∈ [gA, gB, gC], callDev 30 g0 ≤ callDev 30 g) ∧
      ∃ l1 l2, [gA, gB, gC] = l1 ++ g0 :: l2 ∧ ∀ g ∈ l1, callDev 30 g0 < callDev 30 g :=
  select_by_delta_spec.1 30 [gA, gB, gC] ⟨gA, by norm_num, by norm_num [callDev, gA]⟩

/-- C3: the strangle command's missing-parameter case is not rejected — with no
strikes and no delta every validation guard passes and the command proceeds to
open the session and feed subscription, because the second guard repeats the
first guard's condition verbatim and the intended missing-parameter branch is
dead; the call and put commands and the remaining strangle cases do reject as
claimed, before any session or subscription exists. -/
theorem param_validation_gap :
    strangleStart none none none = CmdStart.proceeds ∧
    callStart (some 450) (some 30) = CmdStart.paramError ∧
    callStart none none = CmdStart.paramError ∧
    callStart none (some 100) = CmdStart.paramError ∧
    callStart none (some (-100)) = CmdStart.paramError ∧
    putStart (some 450) (some 30) = CmdStart.paramError ∧
    putStart none none = CmdStart.paramError ∧
    putStart none (some 100) = CmdStart.paramError ∧
    strangleStart (some 450) none (some 30) = CmdStart.paramError ∧
    strangleStart none (some 440) (some 30) = CmdStart.paramError ∧
    strangleStart (some 450) (some 440) (some 30) = CmdStart.paramError ∧
    strangleStart none none (some 100) = CmdStart.paramError := by
  decide

/-- C4 counterexample: the single-leg pricing of the call command never reads
the order quantity — pricing the sold leg (quantity −1) of a call quoted
(bid 1.00, ask 1.10) yields (1.00, 1.10), not the claimed (−1.10, −1.00). -/
theorem single_leg_reversal_claim_false :
    callPricing (-1) ⟨"C1", 1, 11/10⟩ = (1, 11/10) ∧
    ((1 : Rat), (11/10 : Rat)) ≠ ((-(11/10) : Rat), (-1 : Rat)) := by
  refine ⟨rfl, ?_⟩
  intro h
  have h1 : (1 : Rat) = -(11/10) := congrArg Prod.fst h
  norm_num at h1

/-- C4 (amended): the command-level pricing takes no buy/sell sign — a sold
single call is priced exactly as a bought one — but the spec's per-leg-sign
rule, which the code's spread, strangle and condor formulas instantiate at
fixed signs, is antisymmetric: flipping every leg's sign negates and swaps the
(bid, ask) pair, and prices a sold (1.00, 1.10) leg at (−1.10, −1.00). -/
theorem price_combo_reversal :
    (∀ legs : List (Bool × Quote),
      price_combo_spec (legs.map (fun l => (!l.1, l.2))) =
        (-(price_combo_spec legs).2, -(price_combo_spec legs).1)) ∧
    (∀ (quantity : Int) (q : Quote),
      callPricing quantity q = price_combo_spec [(true, q)]) ∧
    (∀ sel hedge : Quote, (spreadBid sel hedge, spreadAsk sel hedge) =
      price_combo_spec [(true, sel), (false, hedge)]) ∧
    (∀ p c : Quote, (strangleBid [p, c], strangleAsk [p, c]) =
      price_combo_spec [(true, p), (true, c)]) ∧
    (∀ c p ps cs : Quote, (condorBid c p ps cs, condorAsk c p ps cs) =
      price_combo_spec [(true, c), (true, p), (false, ps), (false, cs)]) ∧
    price_combo_spec [(false, ⟨"C1", 1, 11/10⟩)] = ((-(11/10) : Rat), (-1 : Rat)) := by
  refine ⟨?_, ?_, ?_, ?_, ?_, ?_⟩
  · intro legs
    rw [price_combo_spec, price_combo_spec, comboBid_flip, comboAsk_flip]
  · intro quantity q
    simp [callPricing, price_combo_spec, comboBid, comboAsk]
  · intro sel hedge
    simp [price_combo_spec, comboBid, comboAsk, spreadBid, spreadAsk, Prod.ext_iff]
    constructor <;> ring
  · intro p c
    simp [price_combo_spec, comboBid, comboAsk, strangleBid, strangleAsk, Prod.ext_iff]
  · intro c p ps cs
    simp [price_combo_spec, comboBid, comboAsk, condorBid, condorAsk, Prod.ext_iff]
    constructor <;> ring
  · simp [price_combo_spec, comboBid, comboAsk, Prod.ext_iff]

/-- C5 counterexample: the put vertical sorts its two contracts descending by
strike (reverse=True), so with selected strike 100, protective strike 95 and
quantity −5 its legs stand at strikes 100 then 95 — not ascending as claimed. -/
theorem put_spread_ascending_claim_false :
    (putSpreadLegs o100 o95 (-5)).map Leg.strike_price = [100, 95] ∧
    ¬ (100 : Rat) ≤ 95 := by
  constructor
  · norm_num [putSpreadLegs, sortPairDesc, build_leg, o100, o95]
  · norm_num

/-- C5 (amended): for negative quantity the near (selected) strike leg is
SELL_TO_OPEN and the far (protective) strike leg BUY_TO_OPEN, each of size
abs(quantity), independent of the discovery order of the two contracts; the
call vertical's legs are ordered ascending by strike but the put vertical's
are ordered descending (selected strike first in both cases). -/
theorem spread_leg_builder_spec :
    ∀ (near far nearP farP : Opt) (q : Int), q < 0 →
      near.strike_price < far.strike_price → farP.strike_price < nearP.strike_price →
      callSpreadLegs near far q =
        [build_leg near q.natAbs OrderAction.SELL_TO_OPEN,
         build_leg far q.natAbs OrderAction.BUY_TO_OPEN] ∧
      callSpreadLegs far near q = callSpreadLegs near far q ∧
      putSpreadLegs nearP farP q =
        [build_leg nearP q.natAbs OrderAction.SELL_TO_OPEN,
         build_leg farP q.natAbs OrderAction.BUY_TO_OPEN] ∧
      putSpreadLegs farP nearP q = putSpreadLegs nearP farP q := by
  intro near far nearP farP q hq hc hp
  refine ⟨?_, ?_, ?_, ?_⟩
  · rw [callSpreadLegs, sortPairAsc, if_neg (not_lt.mpr (le_of_lt hc)), if_pos hq, if_pos hq]
  · rw [callSpreadLegs, callSpreadLegs, sortPairAsc, sortPairAsc,
      if_pos hc, if_neg (not_lt.mpr (le_of_lt hc))]
  · rw [putSpreadLegs, sortPairDesc, if_neg (not_lt.mpr (le_of_lt hp)), if_pos hq, if_pos hq]
  · rw [putSpreadLegs, putSpreadLegs, sortPairDesc, sortPairDesc,
      if_pos hp, if_neg (not_lt.mpr (le_of_lt hp))]

/-- C5 witness: the leg-builder theorem at the concrete verticals 100/105 call
and 100/95 put with quantity −5. -/
theorem spread_leg_builder_spec_w :
    callSpreadLegs c100 c105 (-5) =
      [build_leg c100 (Int.natAbs (-5)) OrderAction.SELL_TO_OPEN,
       build_leg c105 (Int.natAbs (-5)) OrderAction.BUY_TO_OPEN] ∧
    callSpreadLegs c105 c100 (-5) = callSpreadLegs c100 c105 (-5) ∧
    putSpreadLegs o100 o95 (-5) =
      [build_leg o100 (Int.natAbs (-5)) OrderAction.SELL_TO_OPEN,
       build_leg o95 (Int.natAbs (-5)) OrderAction.BUY_TO_OPEN] ∧
    putSpreadLegs o95 o100 (-5) = putSpreadLegs o100 o95 (-5) :=
  spread_leg_builder_spec c100 c105 o100 o95 (-5) (by norm_num)
    (by norm_num [c100, c105]) (by norm_num [o100, o95])

/-- C6: the vertical combo bid is the selected leg's bid minus the hedge leg's
ask, the combo ask the selected ask minus the hedge bid, the mid their exact
average; a supplied limit price is used exactly as given, and rounding to two
decimals happens only when empty input takes the default price round(mid, 2). -/
theorem spread_pricing_spec :
    ∀ (qd : List (String × Quote)) (selSym spSym : String) (qs qh : Quote)
      (mid p : Rat),
      dlookup selSym qd = some qs → dlookup spSym qd = some qh →
      callSpreadPricing qd selSym spSym =
        some (qs.bidPrice - qh.askPrice, qs.askPrice - qh.bidPrice,
          ((qs.bidPrice - qh.askPrice) + (qs.askPrice - qh.bidPrice)) / 2) ∧
      limitPrice (some p) mid = p ∧
      limitPrice none mid = round2 mid := by
  intro qd selSym spSym qs qh mid p h1 h2
  refine ⟨?_, rfl, rfl⟩
  rw [callSpreadPricing, h1, h2]

/-- C6 witness: the spread-pricing theorem at a concrete two-entry quote dict
with a supplied price of 7/4. -/
theorem spread_pricing_spec_w :
    callSpreadPricing [(symX, qX10), (symY, qY20)] symX symY =
      some (qX10.bidPrice - qY20.askPrice, qX10.askPrice - qY20.bidPrice,
        ((qX10.bidPrice - qY20.askPrice) + (qX10.askPrice - qY20.bidPrice)) / 2) ∧
    limitPrice (some (7/4)) (3/2) = 7/4 ∧
    limitPrice none (3/2) = round2 (3/2) :=
  spread_pricing_spec [(symX, qX10), (symY, qY20)] symX symY qX10 qY20
    (3/2) (7/4) (by rfl) (by rfl)

/-- C8 counterexample: on an empty reading set the selection scan completes
normally and hands back the sentinel None — there is no NoMatchError anywhere
in the code — and the command fails only afterwards, when strike resolution
dereferences the sentinel. -/
theorem empty_readings_claim_false :
    selectCallGreek 30 [] = none ∧ selectPutGreek 30 [] = none ∧
    resolveCallStrike [] (selectCallGreek 30 []) = none :=
  ⟨rfl, rfl, rfl⟩

/-- C8 (amended): for every target and strike table, delta selection over an
empty reading set returns the sentinel None rather than raising a dedicated
NoMatchError, and the command never proceeds with a selected value: the
subsequent dereference of the sentinel at strike resolution fails (an unhandled
AttributeError in the source). -/
theorem empty_readings_spec :
    ∀ (t : Int) (strikes : List StrikeRow),
      selectCallGreek t [] = none ∧ selectPutGreek t [] = none ∧
      resolveCallStrike strikes (selectCallGreek t []) = none := by
  intro t strikes
  exact ⟨rfl, rfl, rfl⟩

/-- Unfolding of choose_expiration with the weeklies flag unset. -/
theorem choose_expiration_monthly_eq (expDates : List TDate) (tasty : TDate)
    (inputs : List Tok) :
    choose_expiration expDates false tasty inputs =
      (match listIndex tasty (expDates.filter is_monthly) with
       | none => none
       | some d => chooseLoop (expDates.filter is_monthly) d inputs) := rfl

/-- C9: with the weeklies flag unset, anything the expiration chooser returns
is monthly; monthly means exactly weekday Friday (4) with day-of-month in
[15, 21]; and when the operator's input is empty the chooser returns the tasty
monthly date — the canonical monthly expiration nearest now, supplied by the
external get_tasty_monthly — provided that date is among the offered
monthlies. -/
theorem choose_expiration_spec :
    ∀ (expDates : List TDate) (tasty e : TDate) (inputs rest : List Tok),
      (choose_expiration expDates false tasty inputs = some e → is_monthly e = true) ∧
      (is_monthly e = true ↔ (e.weekday = 4 ∧ 15 ≤ e.day ∧ e.day ≤ 21)) ∧
      (tasty ∈ expDates.filter is_monthly →
        choose_expiration expDates false tasty (Tok.empty :: rest) = some tasty) := by
  intro expDates tasty e inputs rest
  refine ⟨?_, ?_, ?_⟩
  · intro h
    rw [choose_expiration_monthly_eq] at h
    cases hidx : listIndex tasty (expDates.filter is_monthly) with
    | none =>
      rw [hidx] at h
      simp at h
    | some d =>
      rw [hidx] at h
      exact (List.mem_filter.mp (chooseLoop_mem inputs _ d e h)).2
  · simp [is_monthly, and_assoc]
  · intro hmem
    obtain ⟨i, hi⟩ := listIndex_isSome (expDates.filter is_monthly) tasty hmem
    rw [choose_expiration_monthly_eq, hi]
    show (expDates.filter is_monthly).get? i = some tasty
    exact listIndex_get _ tasty i hi

/-- C9 witness: the chooser theorem at a single monthly expiration, Friday
2024-06-21, with empty operator input. -/
theorem choose_expiration_spec_w :
    is_monthly dJun = true ∧
    choose_expiration [dJun] false dJun [Tok.empty] = some dJun := by
  constructor
  · exact (choose_expiration_spec [dJun] dJun dJun [] []).2.1.mpr (by decide)
  · exact (choose_expiration_spec [dJun] dJun dJun [] []).2.2 (by decide)

/-- C10: every order built by the call, put and strangle commands has
price_effect CREDIT for negative quantity and DEBIT otherwise, time_in_force
GTC exactly when the gtc flag is set and DAY otherwise, and order_type LIMIT
always. -/
theorem order_field_invariants :
    ∀ (gtc : Bool) (quantity : Int) (legs : List Leg) (price : Rat),
      (callOrder gtc quantity legs price).price_effect =
        (if quantity < 0 then PriceEffect.CREDIT else PriceEffect.DEBIT) ∧
      (callOrder gtc quantity legs price).time_in_force =
        (if gtc then OrderTimeInForce.GTC else OrderTimeInForce.DAY) ∧
      (callOrder gtc quantity legs price).order_type = OrderType.LIMIT ∧
      (putOrder gtc quantity legs price).price_effect =
        (if quantity < 0 then PriceEffect.CREDIT else PriceEffect.DEBIT) ∧
      (putOrder gtc quantity legs price).time_in_force =
        (if gtc then OrderTimeInForce.GTC else OrderTimeInForce.DAY) ∧
      (putOrder gtc quantity legs price).order_type = OrderType.LIMIT ∧
      (strangleOrder gtc quantity legs price).price_effect =
        (if quantity < 0 then PriceEffect.CREDIT else PriceEffect.DEBIT) ∧
      (strangleOrder gtc quantity legs price).time_in_force =
        (if gtc then OrderTimeInForce.GTC else OrderTimeInForce.DAY) ∧
      (strangleOrder gtc quantity legs price).order_type = OrderType.LIMIT := by
  intro gtc quantity legs price
  exact ⟨rfl, rfl, rfl, rfl, rfl, rfl, rfl, rfl, rfl⟩

end TTCli
